import Mathlib

/-!
Verification of the retrieval-augmented knowledge pipeline core of the
qa-agent repository: text chunking (backend/utils.py), structural
extraction of interactive markup elements with CSS-selector and XPath
synthesis (backend/ingestion.py), and the retrieval pipeline with
grounding validation and selector reconstruction (backend/rag.py).

The Python source is shallowly embedded: pure functions become Lean
functions on `String`/`List Char`/`Nat`; the `while` loop of
`chunk_text` becomes a fuel-indexed loop returning `Option` (where
`none` records that the loop did not finish within the given fuel);
Python dicts used as metadata become association lists with first-match
lookup; the parsed markup tree of the HTML library becomes an inductive
forest, with an element designated by its path of child indices.
-/

namespace QA

/-! ### String utilities (Python string primitives used by the core) -/

/-- ASCII whitespace, the characters removed by Python `str.strip()`
for the inputs this pipeline handles. -/
def pyWs (c : Char) : Bool :=
  c = ' ' || c = '\t' || c = '\n' || c = '\r' || c = '\x0b' || c = '\x0c'

/-- Python `str.strip()` on the character list. -/
def stripL (l : List Char) : List Char :=
  ((l.dropWhile pyWs).reverse.dropWhile pyWs).reverse

/-- Python `str.strip()`. -/
def pyStrip (s : String) : String := ⟨stripL s.data⟩

/-- Python `str.lower()` (character-wise lowering). -/
def lowerS (s : String) : String := ⟨s.data.map Char.toLower⟩

/-- Does `sub` occur in `s` at absolute position `i`? -/
def matchesAt (s sub : List Char) (i : Nat) : Bool :=
  sub.isPrefixOf (s.drop i)

/-- Python `str.rfind(sub, start, stop)`: the rightmost absolute index
at which `sub` occurs entirely inside the slice `s[start:stop]`,
`none` when there is no occurrence (Python returns -1). -/
def rfindIn (s sub : List Char) (start stop : Nat) : Option Nat :=
  (List.range (min stop s.length)).reverse.find?
    (fun i => decide (start ≤ i) && decide (i + sub.length ≤ min stop s.length)
      && matchesAt s sub i)

/-- Python `sub in s` for strings, on character lists. -/
def containsL (needle : List Char) : List Char → Bool
  | [] => needle.isEmpty
  | c :: t => needle.isPrefixOf (c :: t) || containsL needle t

/-- Python `needle in hay` on strings. -/
def strContains (needle hay : String) : Bool := containsL needle.data hay.data

/-- Python `str.split()` with no argument: split on runs of whitespace,
dropping empty pieces. -/
def splitWsAux : List Char → List Char → List (List Char)
  | [], cur => if cur.isEmpty then [] else [cur.reverse]
  | c :: rest, cur =>
    if pyWs c then
      if cur.isEmpty then splitWsAux rest [] else cur.reverse :: splitWsAux rest []
    else splitWsAux rest (c :: cur)

/-- Python `str.split()` producing strings. -/
def splitWs (s : String) : List String :=
  (splitWsAux s.data []).map (fun l => ⟨l⟩)

/-! ### chunk_text (backend/utils.py, lines 66-92) -/

/-- The word-boundary adjustment of the `chunk_text` loop: Python
`word_end = text.rfind(' ', start, end); if word_end > start + chunk_size // 2: end = word_end`. -/
def wordAdjust (s : List Char) (size start end0 : Nat) : Nat :=
  match rfindIn s [' '] start end0 with
  | some we => if start + size / 2 < we then we else end0
  | none => end0

/-- The boundary adjustment of one `chunk_text` iteration: when the
proposed window end is inside the text, prefer the last sentence
terminator past the window midpoint, else the last space past the
midpoint, else keep `end0` (the code at backend/utils.py lines 77-87). -/
def adjustEnd (s : List Char) (size start end0 : Nat) : Nat :=
  if end0 < s.length then
    match rfindIn s ['.', ' '] start end0 with
    | some se => if start + size / 2 < se then se + 1 else wordAdjust s size start end0
    | none => wordAdjust s size start end0
  else end0

/-- The `while start < len(text)` loop of `chunk_text`, with explicit
fuel: `none` means the loop did not finish within `fuel` iterations. -/
def chunkLoop (s : List Char) (size overlap : Nat) : Nat → Nat → List String → Option (List String)
  | 0, start, acc => if start < s.length then none else some acc.reverse
  | fuel + 1, start, acc =>
    if start < s.length then
      chunkLoop s size overlap fuel
        (adjustEnd s size start (start + size) - overlap)
        ((⟨stripL ((s.drop start).take (adjustEnd s size start (start + size) - start))⟩ : String) :: acc)
    else some acc.reverse

/-- `chunk_text(text, chunk_size, overlap)` from backend/utils.py with
the loop given an explicit iteration budget. -/
def chunkTextFuel (text : String) (size overlap fuel : Nat) : Option (List String) :=
  if text.length ≤ size then some [text]
  else chunkLoop text.data size overlap fuel 0 []

/-- `chunk_text` with fuel `length + 1`, which suffices whenever the
window start strictly increases on every iteration. -/
def chunk_text (text : String) (size overlap : Nat) : Option (List String) :=
  chunkTextFuel text size overlap (text.length + 1)

/-! ### Termination analysis of chunk_text -/

theorem adjustEnd_lb (s : List Char) (size start : Nat) (hs : 0 < size) :
    start + size / 2 + 1 ≤ adjustEnd s size start (start + size) := by
  have hdiv : size / 2 < size := Nat.div_lt_self hs (by omega)
  unfold adjustEnd wordAdjust
  repeat' split
  all_goals omega

theorem chunkLoop_isSome (s : List Char) (size overlap : Nat) (hs : 0 < size)
    (ho : overlap ≤ size / 2) :
    ∀ fuel start acc, s.length ≤ start + fuel →
      (chunkLoop s size overlap fuel start acc).isSome := by
  intro fuel
  induction fuel with
  | zero =>
    intro start acc h
    unfold chunkLoop
    rw [if_neg (by omega)]
    simp
  | succ n ih =>
    intro start acc h
    unfold chunkLoop
    split
    · apply ih
      have := adjustEnd_lb s size start hs
      omega
    · simp

theorem string_length_eq_data (s : String) : s.length = s.data.length := rfl

/-- C1 (amended): for every text and every configuration with
`0 < size` and `overlap ≤ size / 2`, `chunk_text` terminates within
`length + 1` loop iterations, and the boundary-adjusted window end of
every iteration exceeds `start + overlap`, so the window start strictly
increases on every iteration.  For `size / 2 < overlap < size` the start
can fail to advance and the loop can run forever, and a returned chunk
can be empty after trimming, as the counterexample shows. -/
theorem chunk_text_terminates (text : String) (size overlap : Nat)
    (hs : 0 < size) (ho : overlap ≤ size / 2) :
    (chunk_text text size overlap).isSome ∧
      ∀ start, start + overlap < adjustEnd text.data size start (start + size) := by
  constructor
  · unfold chunk_text chunkTextFuel
    split
    · simp
    · exact chunkLoop_isSome text.data size overlap hs ho _ 0 []
        (by rw [← string_length_eq_data]; omega)
  · intro start
    have := adjustEnd_lb text.data size start hs
    omega

theorem chunk_text_terminates_witness :
    (chunk_text "hello world this is fine" 10 3).isSome ∧
      0 + 3 < adjustEnd "hello world this is fine".data 10 0 (0 + 10) :=
  ⟨(chunk_text_terminates "hello world this is fine" 10 3 (by decide) (by decide)).1,
   (chunk_text_terminates "hello world this is fine" 10 3 (by decide) (by decide)).2 0⟩

/-- C1 counterexample.  The claim asserts termination, strictly
increasing window start, and non-empty trimmed chunks for every
`overlap < size`.  With `text = "aaa bbbb"`, `size = 4`, `overlap = 3`
(so `overlap < size`), the first iteration moves the cut point back to
the space at index 3, and the next start is `3 - 3 = 0`: the start does
not increase, and 100 iterations of fuel still do not finish the loop.
Separately, with `text` five spaces, `size = 4`, `overlap = 1`
(also `overlap < size`), the loop terminates but both returned chunks
are empty after trimming. -/
theorem chunk_text_counterexample :
    ((3 : Nat) < 4 ∧ adjustEnd "aaa bbbb".data 4 0 (0 + 4) - 3 = 0 ∧
        chunkLoop "aaa bbbb".data 4 3 100 0 [] = none) ∧
      ((1 : Nat) < 4 ∧ chunk_text "     " 4 1 = some ["", ""]) :=
  ⟨⟨by decide, by decide, by decide⟩, ⟨by decide, by decide⟩⟩

/-! ### Behaviour of chunk_text on whitespace-free text -/

theorem isPrefixOf_mem {l m : List Char} (h : l.isPrefixOf m = true) {c : Char}
    (hc : c ∈ l) : c ∈ m := by
  induction l generalizing m with
  | nil => cases hc
  | cons a as ih =>
    cases m with
    | nil => simp [List.isPrefixOf] at h
    | cons b bs =>
      simp only [List.isPrefixOf, Bool.and_eq_true, beq_iff_eq] at h
      rcases List.mem_cons.1 hc with rfl | hmem
      · exact h.1 ▸ List.mem_cons_self _ _
      · exact List.mem_cons_of_mem _ (ih h.2 hmem)

theorem matchesAt_mem {s sub : List Char} {i : Nat} (h : matchesAt s sub i = true)
    {c : Char} (hc : c ∈ sub) : c ∈ s :=
  List.drop_subset i s (isPrefixOf_mem h hc)

theorem rfindIn_none_of_no_space {s sub : List Char} (hs : ' ' ∉ s)
    (hsub : ' ' ∈ sub) (start stop : Nat) : rfindIn s sub start stop = none := by
  unfold rfindIn
  rw [List.find?_eq_none]
  intro i _
  simp only [Bool.and_eq_true, decide_eq_true_eq]
  rintro ⟨-, hm⟩
  exact hs (matchesAt_mem hm hsub)

theorem adjustEnd_noSpace {s : List Char} (hs : ' ' ∉ s) (size start end0 : Nat) :
    adjustEnd s size start end0 = end0 := by
  have h1 : rfindIn s ['.', ' '] start end0 = none :=
    rfindIn_none_of_no_space hs (by simp) start end0
  have h2 : rfindIn s [' '] start end0 = none :=
    rfindIn_none_of_no_space hs (by simp) start end0
  simp [adjustEnd, wordAdjust, h1, h2]

theorem dropWhile_id_of_false {p : Char → Bool} {l : List Char}
    (h : ∀ c ∈ l, p c = false) : l.dropWhile p = l := by
  cases l with
  | nil => rfl
  | cons a t => rw [List.dropWhile_cons, h a (by simp)]; simp

theorem stripL_id {l : List Char} (h : ∀ c ∈ l, pyWs c = false) : stripL l = l := by
  unfold stripL
  rw [dropWhile_id_of_false h,
    dropWhile_id_of_false (fun c hc => h c (List.mem_reverse.1 hc)),
    List.reverse_reverse]

theorem chunkLoop_step750 (s : List Char) (hsp : ' ' ∉ s) (fuel start : Nat)
    (acc : List String) (h : start < s.length) :
    chunkLoop s 750 100 (fuel + 1) start acc
      = chunkLoop s 750 100 fuel (start + 650)
          ((⟨stripL ((s.drop start).take 750)⟩ : String) :: acc) := by
  have ha : adjustEnd s 750 start (start + 750) = start + 750 :=
    adjustEnd_noSpace hsp 750 start (start + 750)
  have e1 : start + 750 - 100 = start + 650 := by omega
  have e2 : start + 750 - start = 750 := by omega
  simp only [chunkLoop, if_pos h, ha, e1, e2]

theorem chunkLoop_done (s : List Char) (size overlap fuel start : Nat)
    (acc : List String) (h : ¬ start < s.length) :
    chunkLoop s size overlap (fuel + 1) start acc = some acc.reverse := by
  simp only [chunkLoop, if_neg h]

/-- A whitespace-free text of exactly 2000 characters is cut into the
four windows `[0,750)`, `[650,1400)`, `[1300,2050)`, `[1950,2700)`
(the last two clamped to the text end): no boundary adjustment fires,
and the start advances by `750 - 100 = 650` each iteration, visiting
0, 650, 1300 and 1950 before reaching `2050 - 100 = 1950` and then
`2700 - 100 = 2600 ≥ 2000`. -/
theorem chunk_text_2000 (text : String) (hlen : text.length = 2000)
    (hw : ∀ c ∈ text.data, pyWs c = false) :
    chunk_text text 750 100 = some
      [⟨stripL (text.data.take 750)⟩,
       ⟨stripL ((text.data.drop 650).take 750)⟩,
       ⟨stripL ((text.data.drop 1300).take 750)⟩,
       ⟨stripL ((text.data.drop 1950).take 750)⟩] := by
  have hsp : ' ' ∉ text.data := fun hmem => by
    have := hw ' ' hmem
    simp [pyWs] at this
  have hl : text.data.length = 2000 := by
    rw [← string_length_eq_data]; exact hlen
  set d := text.data with hd
  have s1 : chunkLoop d 750 100 (2000 + 1) 0 [] =
      chunkLoop d 750 100 2000 650 [⟨stripL (d.take 750)⟩] := by
    have h := chunkLoop_step750 d hsp 2000 0 [] (by omega)
    norm_num at h
    exact h
  have s2 : chunkLoop d 750 100 2000 650 [⟨stripL (d.take 750)⟩] =
      chunkLoop d 750 100 1999 1300
        [⟨stripL ((d.drop 650).take 750)⟩, ⟨stripL (d.take 750)⟩] := by
    have h := chunkLoop_step750 d hsp 1999 650 [⟨stripL (d.take 750)⟩] (by omega)
    norm_num at h
    exact h
  have s3 : chunkLoop d 750 100 1999 1300
        [⟨stripL ((d.drop 650).take 750)⟩, ⟨stripL (d.take 750)⟩] =
      chunkLoop d 750 100 1998 1950
        [⟨stripL ((d.drop 1300).take 750)⟩, ⟨stripL ((d.drop 650).take 750)⟩,
         ⟨stripL (d.take 750)⟩] := by
    have h := chunkLoop_step750 d hsp 1998 1300
      [⟨stripL ((d.drop 650).take 750)⟩, ⟨stripL (d.take 750)⟩] (by omega)
    norm_num at h
    exact h
  have s4 : chunkLoop d 750 100 1998 1950
        [⟨stripL ((d.drop 1300).take 750)⟩, ⟨stripL ((d.drop 650).take 750)⟩,
         ⟨stripL (d.take 750)⟩] =
      chunkLoop d 750 100 1997 2600
        [⟨stripL ((d.drop 1950).take 750)⟩, ⟨stripL ((d.drop 1300).take 750)⟩,
         ⟨stripL ((d.drop 650).take 750)⟩, ⟨stripL (d.take 750)⟩] := by
    have h := chunkLoop_step750 d hsp 1997 1950
      [⟨stripL ((d.drop 1300).take 750)⟩, ⟨stripL ((d.drop 650).take 750)⟩,
       ⟨stripL (d.take 750)⟩] (by omega)
    norm_num at h
    exact h
  have s5 : chunkLoop d 750 100 1997 2600
        [⟨stripL ((d.drop 1950).take 750)⟩, ⟨stripL ((d.drop 1300).take 750)⟩,
         ⟨stripL ((d.drop 650).take 750)⟩, ⟨stripL (d.take 750)⟩] =
      some [⟨stripL (d.take 750)⟩, ⟨stripL ((d.drop 650).take 750)⟩,
        ⟨stripL ((d.drop 1300).take 750)⟩, ⟨stripL ((d.drop 1950).take 750)⟩] := by
    have h := chunkLoop_done d 750 100 1996 2600
      [⟨stripL ((d.drop 1950).take 750)⟩, ⟨stripL ((d.drop 1300).take 750)⟩,
       ⟨stripL ((d.drop 650).take 750)⟩, ⟨stripL (d.take 750)⟩] (by omega)
    norm_num at h
    exact h
  unfold chunk_text chunkTextFuel
  rw [if_neg (by omega), hlen]
  exact (s1.trans (s2.trans (s3.trans (s4.trans s5))))

/-! ### Document chunking with metadata (backend/ingestion.py TextChunker) -/

/-- Scalar metadata values (the storage backend accepts only scalars). -/
inductive MVal where
  | s (v : String)
  | n (v : Nat)
deriving DecidableEq

/-- A retrievable chunk: text plus flattened scalar metadata. -/
structure Chunk where
  text : String
  metadata : List (String × MVal)
deriving DecidableEq

/-- First-match lookup in a metadata association list, mirroring Python
dict lookup (the dicts the code builds have unique keys). -/
def mfind (md : List (String × MVal)) (k : String) : Option MVal :=
  (md.find? (fun kv => kv.1 == k)).map Prod.snd

/-- Python `metadata.get(k, default)` for string values. -/
def mGetS (md : List (String × MVal)) (k default : String) : String :=
  match mfind md k with
  | some (.s v) => v
  | _ => default

/-- Python `metadata.get(k, default)` for numeric values. -/
def mGetN (md : List (String × MVal)) (k : String) (default : Nat) : Nat :=
  match mfind md k with
  | some (.n v) => v
  | _ => default

/-- The `Config.CHUNK_SIZE` default of backend/config.py. -/
def CHUNK_SIZE : Nat := 750

/-- The `Config.CHUNK_OVERLAP` default of backend/config.py. -/
def CHUNK_OVERLAP : Nat := 100

/-- Python `Path(p).name`: the final path component, the characters
after the last slash. -/
def basename (path : String) : String :=
  ⟨path.data.foldl (fun acc c => if c = '/' then [] else acc ++ [c]) []⟩

/-- `TextChunker.chunk_document` (backend/ingestion.py lines 213-235):
empty or whitespace-only text gives no chunks, otherwise each chunk of
`chunk_text` at the configured size and overlap is wrapped with source,
type, chunk_index and total_chunks metadata.  A `none` result
propagates a non-terminating `chunk_text` loop. -/
def chunk_document (file_path doc_type text : String) : Option (List Chunk) :=
  if text = "" ∨ pyStrip text = "" then some []
  else (chunk_text text CHUNK_SIZE CHUNK_OVERLAP).map fun cts =>
    cts.enum.map fun ic =>
      { text := ic.2,
        metadata := [("source", MVal.s (basename file_path)), ("type", MVal.s doc_type),
                     ("chunk_index", MVal.n ic.1), ("total_chunks", MVal.n cts.length)] }

/-- Helper: the full output of `chunk_document` on a whitespace-free
2000-character text at the configured 750/100. -/
theorem chunk_document_2000_eq (path dtype text : String)
    (hlen : text.length = 2000) (hw : ∀ c ∈ text.data, pyWs c = false) :
    chunk_document path dtype text = some
      (([⟨stripL (text.data.take 750)⟩, ⟨stripL ((text.data.drop 650).take 750)⟩,
         ⟨stripL ((text.data.drop 1300).take 750)⟩,
         ⟨stripL ((text.data.drop 1950).take 750)⟩] : List String).enum.map fun ic =>
        { text := ic.2,
          metadata := [("source", MVal.s (basename path)), ("type", MVal.s dtype),
                       ("chunk_index", MVal.n ic.1), ("total_chunks", MVal.n 4)] }) := by
  have htne : text ≠ "" := by
    intro h
    rw [h] at hlen
    simp [string_length_eq_data] at hlen
  have hstrip : pyStrip text = text := by
    unfold pyStrip
    rw [stripL_id hw]
  have hguard : ¬ (text = "" ∨ pyStrip text = "") := by
    rintro (h | h)
    · exact htne h
    · rw [hstrip] at h
      exact htne h
  unfold chunk_document
  rw [if_neg hguard,
    show chunk_text text CHUNK_SIZE CHUNK_OVERLAP = chunk_text text 750 100 from rfl,
    chunk_text_2000 text hlen hw]
  rfl

/-- C2 (amended): for every whitespace-free text of exactly 2000
characters, chunking it with size 750 and overlap 100 (as build does
for a single markdown file) produces exactly 4 chunks, not 3, whose
metadata carries chunk_index 0, 1, 2, 3 and total_chunks 4 on each
chunk (the window starts are 0, 650, 1300 and 1950, since
2050 - 100 = 1950 is still inside the text). -/
theorem chunk_document_2000_four_chunks (path dtype text : String)
    (hlen : text.length = 2000) (hw : ∀ c ∈ text.data, pyWs c = false) :
    (chunk_document path dtype text).map
        (fun cs => cs.map fun c =>
          (mGetN c.metadata "chunk_index" 99, mGetN c.metadata "total_chunks" 99))
      = some [(0, 4), (1, 4), (2, 4), (3, 4)] := by
  rw [chunk_document_2000_eq path dtype text hlen hw]
  rfl

theorem chunk_document_2000_four_chunks_witness :
    (chunk_document "notes.md" "markdown" ⟨List.replicate 2000 'a'⟩).map
        (fun cs => cs.map fun c =>
          (mGetN c.metadata "chunk_index" 99, mGetN c.metadata "total_chunks" 99))
      = some [(0, 4), (1, 4), (2, 4), (3, 4)] :=
  chunk_document_2000_four_chunks "notes.md" "markdown" ⟨List.replicate 2000 'a'⟩
    (by rw [string_length_eq_data]; exact List.length_replicate 2000 'a')
    (fun c hc => by rw [List.eq_of_mem_replicate hc]; rfl)

/-- C2 counterexample: a concrete 2000-character markdown text (2000
letters a) chunked at size 750, overlap 100 yields 4 chunks, refuting
the claimed count of exactly 3. -/
theorem chunk_document_2000_counterexample :
    ((chunk_document "guide.md" "markdown" ⟨List.replicate 2000 'a'⟩).map
        fun cs => cs.length) = some 4 ∧ (4 : Nat) ≠ 3 := by
  constructor
  · rw [chunk_document_2000_eq "guide.md" "markdown" ⟨List.replicate 2000 'a'⟩
      (by rw [string_length_eq_data]; exact List.length_replicate 2000 'a')
      (fun c hc => by rw [List.eq_of_mem_replicate hc]; rfl)]
    rfl
  · omega

/-! ### Decimal rendering of naturals (Python str(n) in f-strings) -/

/-- Decimal digit characters. -/
def digitChar (d : Nat) : Char :=
  if d = 0 then '0' else if d = 1 then '1' else if d = 2 then '2'
  else if d = 3 then '3' else if d = 4 then '4' else if d = 5 then '5'
  else if d = 6 then '6' else if d = 7 then '7' else if d = 8 then '8' else '9'

/-- Decimal digits of `n`, most significant first, with fuel
(fuel `n + 1` always suffices). -/
def natDigits : Nat → Nat → List Char
  | 0, _ => []
  | fuel + 1, n =>
    if n < 10 then [digitChar n] else natDigits fuel (n / 10) ++ [digitChar (n % 10)]

/-- Python `str(n)` for a natural number. -/
def natStr (n : Nat) : String := ⟨natDigits (n + 1) n⟩

/-! ### The parsed markup tree (backend/ingestion.py HTMLParser) -/

/-- A node of the parsed markup tree: an element with tag, attributes
and children, or a bare text node.  A document is a forest, the
children of the library document root. -/
inductive HNode where
  | elem (tag : String) (attrs : List (String × String)) (children : List HNode) : HNode
  | textN (s : String) : HNode

/-- Python `elem.get(key, "")` on the attribute list. -/
def aGet (attrs : List (String × String)) (k : String) : String :=
  ((attrs.find? (fun kv => kv.1 == k)).map Prod.snd).getD ""

/-- The node reached from a forest by a path of child indices. -/
def nodeAt (siblings : List HNode) : List Nat → Option HNode
  | [] => none
  | [i] => siblings.get? i
  | i :: rest =>
    match siblings.get? i with
    | some (.elem _ _ cs) => nodeAt cs rest
    | _ => none

/-- Does this node carry the given tag?  Text nodes have no tag. -/
def hasTag (t : String) : HNode → Bool
  | .elem tg _ _ => tg == t
  | .textN _ => false

mutual
/-- Value equality of markup nodes: same tag, same attributes, same
contents, recursively -- the equality the markup library uses when
Python list.index searches the sibling list, so two value-identical
sibling tags compare equal even though they are distinct nodes. -/
def beqHNode : HNode → HNode → Bool
  | .elem t1 a1 c1, .elem t2 a2 c2 => t1 == t2 && a1 == a2 && beqHNodes c1 c2
  | .textN s1, .textN s2 => s1 == s2
  | _, _ => false
def beqHNodes : List HNode → List HNode → Bool
  | [], [] => true
  | x :: xs, y :: ys => beqHNode x y && beqHNodes xs ys
  | _, _ => false
end

/-- One level of the XPath ancestor walk (backend/ingestion.py lines
198-205), given the siblings list of the node and its child index:
if the parent has more than one child with this tag, emit
`tag[index + 1]` where index is Python `siblings.index(current)` --
the position of the first same-tag sibling VALUE-equal to the node
(the markup library compares tags by value, so value-identical
siblings all receive the first occurrence\x27s position) -- else the
bare tag. -/
def ctxPart (c : List HNode × Nat) : String :=
  match c.1.get? c.2 with
  | some (.elem tag attrs cs) =>
    if 1 < (c.1.filter (hasTag tag)).length then
      tag ++ "[" ++ natStr ((c.1.filter (hasTag tag)).findIdx
        (fun s => beqHNode s (.elem tag attrs cs)) + 1) ++ "]"
    else tag
  | _ => ""

/-- Modelled from the spec wording for C3: one walk level emitting the
structural 1-based position among same-tag siblings exactly when the
parent has more than one child of that tag, else the bare tag. -/
def specCtxPart (c : List HNode × Nat) : String :=
  match c.1.get? c.2 with
  | some (.elem tag _ _) =>
    if 1 < (c.1.filter (hasTag tag)).length then
      tag ++ "[" ++ natStr (1 + ((c.1.take c.2).filter (hasTag tag)).length) ++ "]"
    else tag
  | _ => ""

/-- The same-tag sibling list of a context level. -/
def sameTagSibs (c : List HNode × Nat) : List HNode :=
  match c.1.get? c.2 with
  | some (.elem tag _ _) => c.1.filter (hasTag tag)
  | _ => []

/-- The (siblings, index) contexts along a path, root level first. -/
def ctxs (siblings : List HNode) : List Nat → List (List HNode × Nat)
  | [] => []
  | i :: rest =>
    (siblings, i) :: (match siblings.get? i with
      | some (.elem _ _ cs) => ctxs cs rest
      | _ => [])

/-- The ancestor-walk parts root-to-node, exactly the list the Python
loop assembles with insert(0, ...) while walking upward. -/
def xpathParts (siblings : List HNode) : List Nat → List String
  | [] => []
  | i :: rest =>
    ctxPart (siblings, i) :: (match siblings.get? i with
      | some (.elem _ _ cs) => xpathParts cs rest
      | _ => [])

/-- `HTMLParser._build_xpath` (backend/ingestion.py lines 187-206) for
the node at `p`: an id attribute wins, then a name attribute, else the
structural ancestor walk joined root-to-node with / and prefixed //. -/
def build_xpath (doc : List HNode) (p : List Nat) : String :=
  match nodeAt doc p with
  | some (.elem tag attrs _) =>
    if aGet attrs "id" ≠ "" then "//*[@id=\x27" ++ aGet attrs "id" ++ "\x27]"
    else if aGet attrs "name" ≠ "" then
      "//" ++ tag ++ "[@name=\x27" ++ aGet attrs "name" ++ "\x27]"
    else "//" ++ String.intercalate "/" (xpathParts doc p)
  | _ => ""

/-- Modelled from the spec wording for C3: walk the ancestors from the
node up to the document root (deepest context first), emit the
structural-position part at each step, then join the walked parts
root-to-node with / and prefix //. -/
def specXpathFallback (doc : List HNode) (p : List Nat) : String :=
  "//" ++ String.intercalate "/" (((ctxs doc p).reverse.map specCtxPart).reverse)

/-- `HTMLParser._build_css_selector` (backend/ingestion.py lines
171-185).  `elem_class` is the space-joined class list exactly as the
caller passes it; the class rule splits it back and joins with dots. -/
def build_css_selector (element_type elem_id elem_name elem_class elem_type_attr : String) : String :=
  if elem_id ≠ "" then "#" ++ elem_id
  else if elem_name ≠ "" then element_type ++ "[name=\x27" ++ elem_name ++ "\x27]"
  else if elem_type_attr ≠ "" then element_type ++ "[type=\x27" ++ elem_type_attr ++ "\x27]"
  else if elem_class ≠ "" then element_type ++ "." ++ String.intercalate "." (splitWs elem_class)
  else element_type

/-- Modelled from the spec wording for C4: the precedence chain as an
explicit rule list. -/
def cssRules (element_type elem_id elem_name elem_class elem_type_attr : String) : List (Option String) :=
  [if elem_id ≠ "" then some ("#" ++ elem_id) else none,
   if elem_name ≠ "" then some (element_type ++ "[name=\x27" ++ elem_name ++ "\x27]") else none,
   if elem_type_attr ≠ "" then some (element_type ++ "[type=\x27" ++ elem_type_attr ++ "\x27]") else none,
   if elem_class ≠ "" then some (element_type ++ "." ++ String.intercalate "." (splitWs elem_class)) else none]

/-- Modelled from the spec wording for C4: the first matching rule
wins, else the bare kind. -/
def cssSpec (element_type elem_id elem_name elem_class elem_type_attr : String) : String :=
  ((cssRules element_type elem_id elem_name elem_class elem_type_attr).findSome? id).getD element_type

/-! ### StructuralExtractor (backend/ingestion.py extract_selectors) -/

/-- All element paths of a forest in document (preorder) order; `i` is
the child index of the head of the list within its parent. -/
def pathsAux : Nat → List HNode → List (List Nat)
  | _, [] => []
  | i, n :: rest =>
    (match n with
      | .elem _ _ cs => [i] :: (pathsAux 0 cs).map (fun q => i :: q)
      | .textN _ => []) ++ pathsAux (i + 1) rest

/-- The tag of the node at `p`, if it is an element. -/
def tagAt (doc : List HNode) (p : List Nat) : Option String :=
  match nodeAt doc p with
  | some (.elem tag _ _) => some tag
  | _ => none

/-- The fixed kind priority order of `extract_selectors`. -/
def target_elements : List String := ["input", "button", "select", "textarea", "a", "form"]

/-- `soup.find_all(tag)`: all elements with this tag in document
(preorder) order, designated by their paths. -/
def find_all (doc : List HNode) (t : String) : List (List Nat) :=
  (pathsAux 0 doc).filter (fun p => tagAt doc p == some t)

/-- `elem.get_text(strip=True)`: concatenation of the stripped
descendant text-node strings, in document order. -/
def getTextAux : List HNode → String
  | [] => ""
  | .textN s :: rest => pyStrip s ++ getTextAux rest
  | .elem _ _ cs :: rest => getTextAux cs ++ getTextAux rest

/-- The record `_create_selector_info` builds per element
(backend/ingestion.py lines 137-169). -/
structure SelectorInfo where
  element_type : String
  element_id : String
  element_name : String
  element_class : String
  input_type : String
  css_selector : String
  xpath : String
  text_content : String
  attributes : List (String × String)
  placeholder : String
  value : String
deriving DecidableEq

/-- `HTMLParser._create_selector_info` for the element at `p` (the
unreachable non-element case yields the all-empty record). -/
def create_selector_info (doc : List HNode) (element_type : String) (p : List Nat) : SelectorInfo :=
  match nodeAt doc p with
  | some (.elem _ attrs cs) =>
    let elem_id := aGet attrs "id"
    let elem_name := aGet attrs "name"
    let elem_class := String.intercalate " " (splitWs (aGet attrs "class"))
    let input_type := aGet attrs "type"
    { element_type := element_type
      element_id := elem_id
      element_name := elem_name
      element_class := elem_class
      input_type := input_type
      css_selector := build_css_selector element_type elem_id elem_name elem_class input_type
      xpath := build_xpath doc p
      text_content := ⟨(getTextAux cs).data.take 100⟩
      attributes := attrs
      placeholder := aGet attrs "placeholder"
      value := aGet attrs "value" }
  | _ =>
    { element_type := element_type, element_id := "", element_name := "",
      element_class := "", input_type := "", css_selector := "", xpath := "",
      text_content := "", attributes := [], placeholder := "", value := "" }

/-- The (kind, path) pairs `extract_selectors` iterates over: kinds in
the fixed priority order, document order within each kind. -/
def extractPaths (doc : List HNode) : List (String × List Nat) :=
  (target_elements.map (fun t => (find_all doc t).map (fun p => (t, p)))).flatten

/-- `HTMLParser.extract_selectors` (backend/ingestion.py lines 118-135). -/
def extract_selectors (doc : List HNode) : List SelectorInfo :=
  (extractPaths doc).map (fun q => create_selector_info doc q.1 q.2)

theorem xpathParts_eq_map_ctxs (sibs : List HNode) (q : List Nat) :
    xpathParts sibs q = (ctxs sibs q).map ctxPart := by
  induction q generalizing sibs with
  | nil => rfl
  | cons i rest ih =>
    unfold xpathParts ctxs
    simp only [List.map_cons]
    congr 1
    cases h : sibs.get? i with
    | none => simp
    | some n =>
      cases n with
      | elem t a c => exact ih c
      | textN s => simp

/-- A form with three input children, none carrying id or name. -/
def exDoc : List HNode :=
  [HNode.elem "form" [] [HNode.elem "input" [("type", "text")] [],
    HNode.elem "input" [("type", "email")] [],
    HNode.elem "input" [("type", "submit")] []]]

theorem beq_refl_all : ∀ k : Nat,
    (∀ n : HNode, sizeOf n ≤ k → beqHNode n n = true) ∧
      (∀ l : List HNode, sizeOf l ≤ k → beqHNodes l l = true) := by
  intro k
  induction k using Nat.strong_induction_on with
  | _ k ih =>
    constructor
    · intro n hn
      cases n with
      | textN s => simp [beqHNode]
      | elem t a c =>
        simp only [HNode.elem.sizeOf_spec] at hn
        have hc : sizeOf c < k := by omega
        simp only [beqHNode, Bool.and_eq_true, beq_self_eq_true, true_and]
        exact (ih (sizeOf c) hc).2 c (le_refl _)
    · intro l hl
      cases l with
      | nil => simp [beqHNodes]
      | cons x xs =>
        simp only [List.cons.sizeOf_spec] at hl
        have hx : sizeOf x < k := by omega
        have hxs : sizeOf xs < k := by omega
        simp only [beqHNodes, Bool.and_eq_true]
        exact ⟨(ih (sizeOf x) hx).1 x (le_refl _), (ih (sizeOf xs) hxs).2 xs (le_refl _)⟩

theorem beqHNode_refl (n : HNode) : beqHNode n n = true :=
  (beq_refl_all (sizeOf n)).1 n (le_refl _)

theorem findIdx_append_first {α : Type} (p : α → Bool) :
    ∀ (xs : List α) (y : α) (ys : List α),
      (∀ a ∈ xs, p a = false) → p y = true →
      (xs ++ y :: ys).findIdx p = xs.length := by
  intro xs
  induction xs with
  | nil =>
    intro y ys _ hy
    simp [List.findIdx_cons, hy]
  | cons a t ih =>
    intro y ys hxs hy
    rw [List.cons_append, List.findIdx_cons, hxs a (by simp)]
    simp only [cond_false]
    rw [ih y ys (fun b hb => hxs b (by simp [hb])) hy]
    simp

theorem map_congr_mem {α β : Type} {f g : α → β} :
    ∀ {l : List α}, (∀ a ∈ l, f a = g a) → l.map f = l.map g := by
  intro l
  induction l with
  | nil => intro _; rfl
  | cons a t ih =>
    intro h
    simp only [List.map_cons]
    rw [h a (by simp), ih (fun b hb => h b (by simp [hb]))]

/-- When the same-tag siblings of a level are pairwise value-distinct,
the code\x27s first-value-equal index coincides with the structural
position the spec describes. -/
theorem ctxPart_eq_spec (c : List HNode × Nat)
    (hdist : List.Pairwise (fun a b => beqHNode a b = false) (sameTagSibs c)) :
    ctxPart c = specCtxPart c := by
  obtain ⟨sibs, i⟩ := c
  unfold sameTagSibs at hdist
  unfold ctxPart specCtxPart
  cases hn : sibs.get? i with
  | none => rfl
  | some n =>
    cases n with
    | textN s => rfl
    | elem tag attrs cs =>
      rw [hn] at hdist
      dsimp only at hdist ⊢
      by_cases hlen : 1 < (sibs.filter (hasTag tag)).length
      · rw [if_pos hlen, if_pos hlen]
        rcases List.get?_eq_some.1 hn with ⟨hi, hget⟩
        have hsplit : sibs = sibs.take i ++ HNode.elem tag attrs cs :: sibs.drop (i + 1) := by
          conv_lhs => rw [← List.take_append_drop i sibs]
          congr 1
          rw [List.drop_eq_getElem_cons hi]
          congr 1
        have htagself : hasTag tag (HNode.elem tag attrs cs) = true := by
          simp [hasTag]
        have hfilter : sibs.filter (hasTag tag)
            = (sibs.take i).filter (hasTag tag)
              ++ HNode.elem tag attrs cs :: (sibs.drop (i + 1)).filter (hasTag tag) := by
          conv_lhs => rw [hsplit]
          rw [List.filter_append, List.filter_cons, htagself]
          simp
        rw [hfilter] at hdist
        rcases List.pairwise_append.1 hdist with ⟨-, -, hcross⟩
        have hfalse : ∀ a ∈ (sibs.take i).filter (hasTag tag),
            beqHNode a (HNode.elem tag attrs cs) = false :=
          fun a ha => hcross a ha _ (List.mem_cons_self _ _)
        have hidx : (sibs.filter (hasTag tag)).findIdx
              (fun s => beqHNode s (HNode.elem tag attrs cs))
            = ((sibs.take i).filter (hasTag tag)).length := by
          rw [hfilter]
          exact findIdx_append_first _ _ _ _ hfalse (beqHNode_refl _)
        rw [hidx, Nat.add_comm]
      · rw [if_neg hlen, if_neg hlen]

/-- A form with three value-identical input children (no id, no
name). -/
def inpT : HNode := HNode.elem "input" [("type", "text")] []

def exDocIdent : List HNode := [HNode.elem "form" [] [inpT, inpT, inpT]]

/-- C3 (amended): for every element with no id and no name attribute,
the synthesized xpath walks the ancestors to the document root,
emitting tag[position] exactly when the parent has more than one
child of that tag, joined root-to-node with / and prefixed //, where
position is 1 + the index of the first same-tag sibling value-equal
to the node (Python list.index under the markup library\x27s value
equality).  Whenever the same-tag siblings at every ancestor level
are pairwise value-distinct this is the structural 1-based position
of the spec, and the walk equals the spec walk; in particular the
second of three pairwise-distinct input siblings under one form
yields //form/input[2], ending in input[2].  Value-identical
siblings instead share the first occurrence\x27s position, as the
counterexample shows. -/
theorem xpath_fallback_walk (doc : List HNode) (p : List Nat)
    (tag : String) (attrs : List (String × String)) (cs : List HNode)
    (hnode : nodeAt doc p = some (.elem tag attrs cs))
    (hid : aGet attrs "id" = "") (hname : aGet attrs "name" = "")
    (hdist : ∀ c ∈ ctxs doc p,
      List.Pairwise (fun a b => beqHNode a b = false) (sameTagSibs c)) :
    build_xpath doc p = specXpathFallback doc p ∧
      (build_xpath exDoc [0, 1] = "//form/input[2]" ∧
        List.isSuffixOf "input[2]".data (build_xpath exDoc [0, 1]).data = true) := by
  refine ⟨?_, by rfl, by decide⟩
  unfold build_xpath specXpathFallback
  rw [hnode]
  dsimp only
  rw [if_neg (by simp [hid]), if_neg (by simp [hname]),
    xpathParts_eq_map_ctxs, ← List.map_reverse, List.reverse_reverse,
    map_congr_mem (fun c hc => ctxPart_eq_spec c (hdist c hc))]

theorem xpath_fallback_walk_witness :
    build_xpath exDoc [0, 1] = specXpathFallback exDoc [0, 1] :=
  (xpath_fallback_walk exDoc [0, 1] "input" [("type", "email")] []
    (by rfl) (by rfl) (by rfl) (by decide)).1

/-- C3 counterexample: the claim asserts the structural 1-based
position among same-tag siblings, with the second of three input
siblings ending in input[2].  The code computes
siblings.index(current) + 1, and the markup library compares tags by
value, so the second of three value-identical input siblings (no id,
no name) receives the first occurrence\x27s position: its xpath is
//form/input[1] and does not end in input[2]. -/
theorem xpath_identical_siblings_counterexample :
    (aGet [("type", "text")] "id" = "" ∧ aGet [("type", "text")] "name" = "") ∧
      build_xpath exDocIdent [0, 1] = "//form/input[1]" ∧
        List.isSuffixOf "input[2]".data (build_xpath exDocIdent [0, 1]).data = false :=
  ⟨⟨by decide, by decide⟩, by decide, by decide⟩

/-- C4: css_selector synthesis follows the fixed precedence chain
(id, then name, then type, then dot-joined classes, then the bare
kind), formalized as agreement with the first-matching-rule chain
taken from the spec wording; and in particular an element with both
id x and name y always yields #x, whatever its kind, classes or type
attribute are. -/
theorem css_selector_precedence :
    (∀ kind i n c t, build_css_selector kind i n c t = cssSpec kind i n c t) ∧
      ∀ kind c t, build_css_selector kind "x" "y" c t = "#x" := by
  constructor
  · intro kind i n c t
    unfold build_css_selector cssSpec cssRules
    by_cases hi : i = "" <;> by_cases hn : n = "" <;>
      by_cases ht : t = "" <;> by_cases hc : c = "" <;>
      simp [hi, hn, ht, hc, List.findSome?]
  · intro kind c t
    have hx : ("x" : String) ≠ "" := by decide
    simp only [build_css_selector, if_pos hx]
    rfl

/-! ### Invariants of the structural extractor (C5) -/

theorem string_eq_empty_iff_data {s : String} : s = "" ↔ s.data = [] :=
  ⟨fun h => by rw [h], fun h => by
    cases s with
    | mk d => exact congrArg String.mk h⟩

theorem append_ne_left {a b : String} (ha : a ≠ "") : a ++ b ≠ "" := by
  intro h
  apply ha
  rw [string_eq_empty_iff_data] at h ⊢
  rw [String.data_append] at h
  exact (List.append_eq_nil.1 h).1

theorem build_css_selector_ne (kind i n c t : String) (hk : kind ≠ "") :
    build_css_selector kind i n c t ≠ "" := by
  unfold build_css_selector
  repeat' split
  all_goals first
    | exact hk
    | exact append_ne_left (by decide)
    | exact append_ne_left hk
    | exact append_ne_left (append_ne_left hk)
    | exact append_ne_left (append_ne_left (append_ne_left hk))

theorem build_xpath_ne (doc : List HNode) (p : List Nat) (tag : String)
    (attrs : List (String × String)) (cs : List HNode)
    (h : nodeAt doc p = some (.elem tag attrs cs)) : build_xpath doc p ≠ "" := by
  unfold build_xpath
  rw [h]
  dsimp only
  repeat' split
  all_goals first
    | exact append_ne_left (by decide)
    | exact append_ne_left (append_ne_left (by decide))
    | exact append_ne_left (append_ne_left (append_ne_left (append_ne_left (by decide))))

theorem tagAt_eq_some {doc : List HNode} {p : List Nat} {t : String}
    (h : tagAt doc p = some t) :
    ∃ attrs cs, nodeAt doc p = some (.elem t attrs cs) := by
  unfold tagAt at h
  cases hn : nodeAt doc p with
  | none => rw [hn] at h; cases h
  | some n =>
    cases n with
    | elem tag a c =>
      rw [hn] at h
      simp only [Option.some.injEq] at h
      subst h
      exact ⟨a, c, rfl⟩
    | textN s => rw [hn] at h; cases h

theorem pairwise_of_forall_mem {α : Type} {R : α → α → Prop} :
    ∀ {l : List α}, (∀ a ∈ l, ∀ b ∈ l, R a b) → l.Pairwise R := by
  intro l
  induction l with
  | nil => intro _; constructor
  | cons a tl ih =>
    intro h
    constructor
    · intro b hb
      exact h a (by simp) b (by simp [hb])
    · exact ih (fun x hx y hy => h x (by simp [hx]) y (by simp [hy]))

/-- The rank of a kind in the fixed priority order. -/
def kindRank (t : String) : Nat := target_elements.indexOf t

theorem mem_extractPaths {doc : List HNode} {q : String × List Nat} :
    q ∈ extractPaths doc ↔ q.1 ∈ target_elements ∧ q.2 ∈ find_all doc q.1 := by
  unfold extractPaths
  simp only [List.mem_flatten, List.mem_map]
  constructor
  · rintro ⟨l, ⟨t, ht, rfl⟩, hq⟩
    rcases List.mem_map.1 hq with ⟨p, hp, rfl⟩
    exact ⟨ht, hp⟩
  · rintro ⟨ht, hp⟩
    exact ⟨(find_all doc q.1).map (fun p => (q.1, p)), ⟨q.1, ht, rfl⟩,
      List.mem_map.2 ⟨q.2, hp, rfl⟩⟩

theorem extractPaths_kind_sorted (doc : List HNode) :
    List.Pairwise (fun a b : String × List Nat => kindRank a.1 ≤ kindRank b.1)
      (extractPaths doc) := by
  unfold extractPaths
  rw [List.pairwise_flatten]
  constructor
  · intro l hl
    rcases List.mem_map.1 hl with ⟨t, ht, rfl⟩
    apply pairwise_of_forall_mem
    intro a ha b hb
    rcases List.mem_map.1 ha with ⟨p, hp, rfl⟩
    rcases List.mem_map.1 hb with ⟨p2, hp2, rfl⟩
    exact le_refl _
  · rw [List.pairwise_map]
    have hbase : List.Pairwise (fun t u : String => kindRank t ≤ kindRank u)
        target_elements := by decide
    refine hbase.imp ?_
    intro t u h x hx y hy
    rcases List.mem_map.1 hx with ⟨p, hp, rfl⟩
    rcases List.mem_map.1 hy with ⟨p2, hp2, rfl⟩
    exact h

theorem filter_flatten_blocks {X : Type} (f : String → List X) :
    ∀ (ks : List String), ks.Nodup → ∀ t,
      (((ks.map (fun u => (f u).map (fun p => (u, p)))).flatten.filter
          (fun q => q.1 == t)).map Prod.snd)
        = if t ∈ ks then f t else [] := by
  intro ks
  induction ks with
  | nil =>
    intro _ t
    simp
  | cons u ks ih =>
    intro hnd t
    rcases List.nodup_cons.1 hnd with ⟨hu, hks⟩
    have hblock : ((f u).map (fun p => (u, p))).filter (fun q => q.1 == t)
        = if u = t then (f u).map (fun p => (u, p)) else [] := by
      by_cases h : u = t
      · subst h
        rw [if_pos rfl]
        apply List.filter_eq_self.2
        intro a ha
        rcases List.mem_map.1 ha with ⟨p, hp, rfl⟩
        simp
      · rw [if_neg h]
        apply List.filter_eq_nil_iff.2
        intro a ha
        rcases List.mem_map.1 ha with ⟨p, hp, rfl⟩
        simp [h]
    rw [List.map_cons, List.flatten_cons, List.filter_append, hblock,
      List.map_append, ih hks t]
    by_cases h : u = t
    · subst h
      rw [if_pos rfl, if_pos (List.mem_cons_self u ks), if_neg hu]
      simp [List.map_map, Function.comp]
    · rw [if_neg h]
      simp only [List.map_nil, List.nil_append]
      by_cases hm : t ∈ ks
      · rw [if_pos hm, if_pos (List.mem_cons_of_mem u hm)]
      · rw [if_neg hm, if_neg (fun hc => by
          rcases List.mem_cons.1 hc with he | hm2
          exacts [h he.symm, hm hm2])]

/-- C5: the structural extractor is deterministic (it is a pure
function of the markup forest: equal inputs give equal outputs),
every extracted element has a non-empty css_selector and a non-empty
xpath, the extraction order is kind-major in the fixed priority order
input, button, select, textarea, a, form, and within one kind the
extracted paths are exactly the document-order occurrences of that
kind, a sublist of the preorder traversal of the forest. -/
theorem structural_extractor_invariants (doc : List HNode) :
    (∀ d₂, doc = d₂ → extract_selectors doc = extract_selectors d₂) ∧
      (∀ s ∈ extract_selectors doc, s.css_selector ≠ "" ∧ s.xpath ≠ "") ∧
      List.Pairwise (fun a b : String × List Nat => kindRank a.1 ≤ kindRank b.1)
        (extractPaths doc) ∧
      ∀ t ∈ target_elements,
        ((extractPaths doc).filter (fun q => q.1 == t)).map Prod.snd = find_all doc t ∧
          List.Sublist (find_all doc t) (pathsAux 0 doc) := by
  refine ⟨fun d₂ h => h ▸ rfl, ?_, extractPaths_kind_sorted doc, ?_⟩
  · intro s hs
    rcases List.mem_map.1 hs with ⟨q, hq, rfl⟩
    rcases mem_extractPaths.1 hq with ⟨ht, hp⟩
    have htag : tagAt doc q.2 = some q.1 := by
      have := (List.mem_filter.1 hp).2
      simpa using this
    rcases tagAt_eq_some htag with ⟨attrs, cs, hnode⟩
    have hkind : q.1 ≠ "" := by
      have hall : ∀ u ∈ target_elements, u ≠ "" := by decide
      exact hall q.1 ht
    constructor
    · simp only [create_selector_info, hnode]
      exact build_css_selector_ne _ _ _ _ _ hkind
    · simp only [create_selector_info, hnode]
      exact build_xpath_ne doc q.2 q.1 attrs cs hnode
  · intro t ht
    refine ⟨?_, List.filter_sublist _⟩
    have hnd : target_elements.Nodup := by decide
    have hf := filter_flatten_blocks (fun u => find_all doc u) target_elements hnd t
    unfold extractPaths
    rw [hf, if_pos ht]

theorem structural_extractor_invariants_witness :
    (create_selector_info exDoc "input" [0, 0]).css_selector ≠ "" ∧
      (create_selector_info exDoc "input" [0, 0]).xpath ≠ "" := by
  have hmem : ("input", ([0, 0] : List Nat)) ∈ extractPaths exDoc := by
    apply mem_extractPaths.2
    refine ⟨by decide, ?_⟩
    unfold find_all
    apply List.mem_filter.2
    constructor
    · simp [pathsAux, exDoc]
    · rfl
  exact (structural_extractor_invariants exDoc).2.1
    (create_selector_info exDoc "input" [0, 0])
    (List.mem_map.2 ⟨("input", [0, 0]), hmem, rfl⟩)

/-! ### Retrieval results and the RAG pipeline (backend/rag.py) -/

/-- A retrieval result as the pipeline consumes it: chunk text,
flattened metadata, and the already-rendered two-decimal relevance
score (the floating-point cosine similarity itself lives in the
excluded index backend; only its rendered form enters the context
string, so it is carried here as an opaque string). -/
structure RResult where
  text : String
  metadata : List (String × MVal)
  relevance : String
deriving DecidableEq

/-- `RAGPipeline.validate_grounding` (backend/rag.py lines 156-168):
false on an empty result list, else true iff some result source value
(defaulting to the empty string) occurs case-insensitively in the
generated text. -/
def validate_grounding (generated_text : String) (context_results : List RResult) : Bool :=
  if context_results.isEmpty then false
  else (context_results.map (fun r => mGetS r.metadata "source" "")).any
    (fun source => strContains (lowerS source) (lowerS generated_text))

/-- `RAGPipeline._format_context_with_sources` (backend/rag.py lines
84-101): the literal sentinel on no results, else the enumerated
source-attributed block joined with newlines. -/
def format_context_with_sources (results : List RResult) : String :=
  if results.isEmpty then "No relevant context found."
  else String.intercalate "\n" ("RETRIEVED CONTEXT:\n" ::
    results.enum.map (fun ir =>
      "[" ++ natStr (ir.1 + 1) ++ "] Source: " ++ mGetS ir.2.metadata "source" "unknown"
        ++ " | Type: " ++ mGetS ir.2.metadata "type" "unknown"
        ++ " | Relevance: " ++ ir.2.relevance ++ "\n" ++ ir.2.text ++ "\n"))

/-- The reconstructed selector record of `_extract_html_selectors`
(backend/rag.py lines 111-119). -/
structure RSel where
  element_type : String
  element_id : String
  element_name : String
  css_selector : String
  xpath : String
  placeholder : String
  input_type : String
deriving DecidableEq

/-- Re-expansion of flattened selector metadata (backend/rag.py lines
111-119 and 139-147). -/
def reconstructSel (md : List (String × MVal)) : RSel :=
  { element_type := mGetS md "element_type" ""
    element_id := mGetS md "element_id" ""
    element_name := mGetS md "element_name" ""
    css_selector := mGetS md "css_selector" ""
    xpath := mGetS md "xpath" ""
    placeholder := mGetS md "placeholder" ""
    input_type := mGetS md "input_type" "" }

/-- Python dict assignment `d[k] = v` on an association list: update in
place when the key exists, else append. -/
def dictInsert (d : List (String × RSel)) (k : String) (v : RSel) : List (String × RSel) :=
  if d.any (fun kv => kv.1 == k) then d.map (fun kv => if kv.1 == k then (k, v) else kv)
  else d ++ [(k, v)]

/-- The reconstruction key (backend/rag.py lines 121-124): element id,
else element name, else element_type followed by an underscore and the
current dict size (Python `or` chains on truthiness, so empty strings
fall through). -/
def selKey (sd : RSel) (count : Nat) : String :=
  if sd.element_id ≠ "" then sd.element_id
  else if sd.element_name ≠ "" then sd.element_name
  else sd.element_type ++ "_" ++ natStr count

/-- One iteration of the reconstruction loop shared by
`_extract_html_selectors` and `get_all_html_selectors`. -/
def selStep (selectors : List (String × RSel)) (r : RResult) : List (String × RSel) :=
  if mGetS r.metadata "type" "" == "html_selector" then
    dictInsert selectors (selKey (reconstructSel r.metadata) selectors.length)
      (reconstructSel r.metadata)
  else selectors

/-- `RAGPipeline._extract_html_selectors` (backend/rag.py lines
103-127); `get_all_html_selectors` runs the same loop over a broad
search result. -/
def extract_html_selectors (results : List RResult) : List (String × RSel) :=
  results.foldl selStep []

/-- The value `retrieve_context` returns (backend/rag.py lines 61-82).
Sources are Python `list(set(...))`; insertion-order deduplication
stands in for the unordered set. -/
structure RetrievalOut where
  context : String
  sources : List String
  results : List RResult
  html_selectors : List (String × RSel)

/-- `RAGPipeline.retrieve_context`, parameterized by the search results
the vector store returned for the query. -/
def retrieve_context (results : List RResult) : RetrievalOut :=
  { context := format_context_with_sources results
    sources := (results.map (fun r => mGetS r.metadata "source" "unknown")).dedup
    results := results
    html_selectors := extract_html_selectors results }

/-! ### C6, C8 and C10: grounding validation and the empty sentinel -/

theorem containsL_nil (l : List Char) : containsL [] l = true := by
  cases l <;> rfl

/-- C6: validate_grounding is true exactly when the result list is
non-empty and some result source metadata value (the empty string when
the key is absent) occurs as a case-insensitive substring of the
generated text; in particular it is false on an empty result list. -/
theorem validate_grounding_iff (t : String) (rs : List RResult) :
    validate_grounding t rs = true ↔
      rs ≠ [] ∧ ∃ r ∈ rs,
        strContains (lowerS (mGetS r.metadata "source" "")) (lowerS t) = true := by
  cases rs with
  | nil => simp [validate_grounding]
  | cons a l =>
    unfold validate_grounding
    rw [if_neg (by simp)]
    simp only [List.any_eq_true, List.mem_map]
    constructor
    · rintro ⟨s, ⟨r, hr, rfl⟩, hc⟩
      exact ⟨by simp, r, hr, hc⟩
    · rintro ⟨-, r, hr, hc⟩
      exact ⟨mGetS r.metadata "source" "", ⟨r, hr, rfl⟩, hc⟩

theorem validate_grounding_iff_witness :
    validate_grounding "the file report.md says so"
      [⟨"", [("source", MVal.s "report.md")], ""⟩] = true :=
  (validate_grounding_iff "the file report.md says so"
      [⟨"", [("source", MVal.s "report.md")], ""⟩]).2
    ⟨by decide, ⟨"", [("source", MVal.s "report.md")], ""⟩, by simp, by decide⟩

/-- C8: on zero search results the returned context is exactly the
sentinel sentence and the source set is empty. -/
theorem retrieve_context_empty_sentinel :
    (retrieve_context []).context = "No relevant context found." ∧
      (retrieve_context []).sources = [] :=
  ⟨rfl, rfl⟩

/-- C10: a non-empty result list containing a result whose source
metadata is absent or empty makes validate_grounding true for every
generated text, because the empty string is a substring of every
string. -/
theorem validate_grounding_empty_source (t : String) (rs : List RResult) (r : RResult)
    (hr : r ∈ rs) (hsrc : mGetS r.metadata "source" "" = "") :
    validate_grounding t rs = true := by
  unfold validate_grounding
  rw [if_neg (by
    intro h
    rw [List.isEmpty_iff] at h
    rw [h] at hr
    cases hr)]
  rw [List.any_eq_true]
  refine ⟨mGetS r.metadata "source" "", List.mem_map.2 ⟨r, hr, rfl⟩, ?_⟩
  rw [hsrc]
  exact containsL_nil _

theorem validate_grounding_empty_source_witness :
    validate_grounding "anything at all" [⟨"chunk", [("type", MVal.s "text")], ""⟩] = true :=
  validate_grounding_empty_source "anything at all"
    [⟨"chunk", [("type", MVal.s "text")], ""⟩]
    ⟨"chunk", [("type", MVal.s "text")], ""⟩ (by simp) (by decide)

/-! ### C7: uniqueness of fallback reconstruction keys -/

theorem digitChar_ne_underscore (d : Nat) : digitChar d ≠ '_' := by
  unfold digitChar
  repeat' split
  all_goals decide

theorem natDigits_ne_underscore : ∀ fuel n c, c ∈ natDigits fuel n → c ≠ '_' := by
  intro fuel
  induction fuel with
  | zero => intro n c hc; cases hc
  | succ f ih =>
    intro n c hc
    unfold natDigits at hc
    split at hc
    · rcases List.mem_singleton.1 hc with rfl
      exact digitChar_ne_underscore n
    · rcases List.mem_append.1 hc with h | h
      · exact ih _ _ h
      · rcases List.mem_singleton.1 h with rfl
        exact digitChar_ne_underscore _

/-- The numeric value of a digit character. -/
def digitVal (c : Char) : Nat := c.toNat - 48

/-- The value of a most-significant-first digit list. -/
def digitsVal (l : List Char) : Nat := l.foldl (fun a c => a * 10 + digitVal c) 0

theorem digitVal_digitChar {d : Nat} (h : d < 10) : digitVal (digitChar d) = d := by
  interval_cases d <;> rfl

theorem digitsVal_append_digit (xs : List Char) (c : Char) :
    digitsVal (xs ++ [c]) = digitsVal xs * 10 + digitVal c := by
  unfold digitsVal
  rw [List.foldl_append]
  rfl

theorem digitsVal_natDigits : ∀ fuel n, n ≤ fuel → digitsVal (natDigits (fuel + 1) n) = n := by
  intro fuel
  induction fuel with
  | zero =>
    intro n hn
    interval_cases n
    rfl
  | succ f ih =>
    intro n hn
    unfold natDigits
    split
    · rename_i h10
      show digitsVal [digitChar n] = n
      unfold digitsVal
      simp only [List.foldl_cons, List.foldl_nil, Nat.zero_mul, Nat.zero_add]
      exact digitVal_digitChar h10
    · rename_i h10
      push_neg at h10
      have hdiv : n / 10 ≤ f := by
        have := Nat.div_lt_self (by omega : 0 < n) (by omega : 1 < 10)
        omega
      rw [digitsVal_append_digit, ih (n / 10) hdiv,
        digitVal_digitChar (Nat.mod_lt n (by omega))]
      omega

theorem string_data_inj {s t : String} (h : s.data = t.data) : s = t := by
  cases s with
  | mk a =>
    cases t with
    | mk b =>
      cases h
      rfl

theorem natStr_inj {j k : Nat} (h : natStr j = natStr k) : j = k := by
  have hd : natDigits (j + 1) j = natDigits (k + 1) k := congrArg String.data h
  have hj := digitsVal_natDigits j j (le_refl j)
  have hk := digitsVal_natDigits k k (le_refl k)
  rw [← hj, hd, hk]

theorem append_mark_inj {xs ys as bs : List Char}
    (hx : ∀ c ∈ xs, c ≠ '_') (hy : ∀ c ∈ ys, c ≠ '_')
    (h : xs ++ '_' :: as = ys ++ '_' :: bs) : xs = ys := by
  induction xs generalizing ys with
  | nil =>
    cases ys with
    | nil => rfl
    | cons y yt =>
      simp only [List.nil_append, List.cons_append, List.cons.injEq] at h
      exact absurd h.1.symm (hy y (by simp))
  | cons x xt ih =>
    cases ys with
    | nil =>
      simp only [List.cons_append, List.nil_append, List.cons.injEq] at h
      exact absurd h.1 (hx x (by simp))
    | cons y yt =>
      simp only [List.cons_append, List.cons.injEq] at h
      rw [List.cons.injEq]
      exact ⟨h.1, ih (fun c hc => hx c (by simp [hc]))
        (fun c hc => hy c (by simp [hc])) h.2⟩

theorem selKey_fallback_inj {t u : String} {j k : Nat}
    (h : t ++ "_" ++ natStr j = u ++ "_" ++ natStr k) : j = k := by
  have hd : t.data ++ '_' :: (natStr j).data = u.data ++ '_' :: (natStr k).data := by
    have hh := congrArg String.data h
    simpa [String.data_append] using hh
  have hrev : (natStr j).data.reverse ++ '_' :: t.data.reverse
      = (natStr k).data.reverse ++ '_' :: u.data.reverse := by
    have hh := congrArg List.reverse hd
    simpa [List.reverse_append] using hh
  have hx : ∀ c ∈ (natStr j).data.reverse, c ≠ '_' := fun c hc =>
    natDigits_ne_underscore _ _ c (List.mem_reverse.1 hc)
  have hy : ∀ c ∈ (natStr k).data.reverse, c ≠ '_' := fun c hc =>
    natDigits_ne_underscore _ _ c (List.mem_reverse.1 hc)
  have hr := append_mark_inj hx hy hrev
  have hdd : (natStr j).data = (natStr k).data := by
    have hh := congrArg List.reverse hr
    simpa using hh
  exact natStr_inj (string_data_inj hdd)

theorem selStep_fold_length : ∀ (rs : List RResult) (d : List (String × RSel)),
    (∀ kv ∈ d, ∃ u j, j < d.length ∧ kv.1 = u ++ "_" ++ natStr j) →
    (∀ r ∈ rs, mGetS r.metadata "type" "" = "html_selector" →
      mGetS r.metadata "element_id" "" = "" ∧ mGetS r.metadata "element_name" "" = "") →
    (rs.foldl selStep d).length
      = d.length + (rs.filter (fun r => mGetS r.metadata "type" "" == "html_selector")).length := by
  intro rs
  induction rs with
  | nil =>
    intro d _ _
    simp
  | cons r rs ih =>
    intro d hd hr
    rw [List.foldl_cons, List.filter_cons]
    by_cases h : mGetS r.metadata "type" "" = "html_selector"
    · have hid := (hr r (by simp) h).1
      have hname := (hr r (by simp) h).2
      have hkey : selKey (reconstructSel r.metadata) d.length
          = (reconstructSel r.metadata).element_type ++ "_" ++ natStr d.length := by
        unfold selKey
        rw [if_neg (by simp only [reconstructSel]; simp [hid]),
          if_neg (by simp only [reconstructSel]; simp [hname])]
      have hfresh : (d.any (fun kv =>
          kv.1 == selKey (reconstructSel r.metadata) d.length)) = false := by
        rw [Bool.eq_false_iff]
        intro hany
        rcases List.any_eq_true.1 hany with ⟨kv, hkv, hbeq⟩
        rcases hd kv hkv with ⟨u, j, hj, hkv1⟩
        have heq : kv.1 = selKey (reconstructSel r.metadata) d.length := by
          exact beq_iff_eq.1 hbeq
        rw [hkey, hkv1] at heq
        have := selKey_fallback_inj heq
        omega
      have hstep : selStep d r = d ++ [(selKey (reconstructSel r.metadata) d.length,
          reconstructSel r.metadata)] := by
        unfold selStep dictInsert
        rw [if_pos (beq_iff_eq.2 h), if_neg (by rw [hfresh]; exact Bool.false_ne_true)]
      rw [hstep, ih (d ++ [(selKey (reconstructSel r.metadata) d.length,
          reconstructSel r.metadata)]) ?_ (fun x hx hh => hr x (by simp [hx]) hh)]
      · rw [if_pos (beq_iff_eq.2 h)]
        simp only [List.length_append, List.length_cons, List.length_nil]
        omega
      · intro kv hkv
        rcases List.mem_append.1 hkv with hold | hnew
        · rcases hd kv hold with ⟨u, j, hj, hkv1⟩
          exact ⟨u, j, by simp only [List.length_append, List.length_cons,
            List.length_nil]; omega, hkv1⟩
        · rcases List.mem_singleton.1 hnew with rfl
          refine ⟨(reconstructSel r.metadata).element_type, d.length, ?_, hkey⟩
          simp
    · have hstep : selStep d r = d := by
        unfold selStep
        rw [if_neg (by
          intro hb
          exact h (beq_iff_eq.1 hb))]
      rw [hstep, if_neg (by
        intro hb
        exact h (beq_iff_eq.1 hb)), ih d hd (fun x hx hh => hr x (by simp [hx]) hh)]

/-- C7 (amended): when every html_selector result carries neither an
element id nor an element name, the fallback key element_type
underscore ordinal is fresh at every step (the ordinal, the running
dict size, differs from the numeric suffix of every previously
assigned key), so every such result lands under its own key and none
is lost: the reconstructed dict has exactly one entry per
html_selector result.  When ids or names repeat across results the
keys collide and entries are overwritten, as the counterexample
shows. -/
theorem selector_fallback_keys_unique (rs : List RResult)
    (h : ∀ r ∈ rs, mGetS r.metadata "type" "" = "html_selector" →
      mGetS r.metadata "element_id" "" = "" ∧ mGetS r.metadata "element_name" "" = "") :
    (extract_html_selectors rs).length
      = (rs.filter (fun r => mGetS r.metadata "type" "" == "html_selector")).length := by
  have hh := selStep_fold_length rs [] (by intro kv hkv; cases hkv) h
  simpa [extract_html_selectors] using hh

/-- Two fallback-keyed selector results used as concrete inputs. -/
def fbA : RResult := ⟨"", [("type", MVal.s "html_selector"), ("element_type", MVal.s "input")], ""⟩

def fbB : RResult := ⟨"", [("type", MVal.s "html_selector"), ("element_type", MVal.s "button")], ""⟩

/-- Two selector results sharing the element id x. -/
def colA : RResult := ⟨"", [("type", MVal.s "html_selector"), ("element_id", MVal.s "x"),
  ("element_type", MVal.s "input")], ""⟩

def colB : RResult := ⟨"", [("type", MVal.s "html_selector"), ("element_id", MVal.s "x"),
  ("element_type", MVal.s "button")], ""⟩

theorem selector_fallback_keys_unique_witness :
    (extract_html_selectors [fbA, fbB]).length
      = ([fbA, fbB].filter (fun r => mGetS r.metadata "type" "" == "html_selector")).length :=
  selector_fallback_keys_unique [fbA, fbB] (by decide)

/-- C7 counterexample: two html_selector results with the same element
id x collide on the key x, the second overwrites the first, and the
reconstructed dict keeps 1 entry for 2 results, so the key assignment
is not unique and an element is lost. -/
theorem selector_key_collision_counterexample :
    (extract_html_selectors [colA, colB]).length = 1 ∧
      ([colA, colB].filter
        (fun r => mGetS r.metadata "type" "" == "html_selector")).length = 2 :=
  ⟨by decide, by decide⟩

/-! ### C9: build isolates per-file parse failures (backend/rag.py lines 14-59) -/

/-- The parsed document the per-format parsers return: normalized
text, format tag, and the structural elements extracted from markup. -/
structure ParsedDoc where
  text : String
  type : String
  selectors : List SelectorInfo

/-- `TextChunker.chunk_selectors` (backend/ingestion.py lines 237-275):
one chunk per element, its text pipe-joined from the non-empty fields
in the fixed order, its metadata the flattened selector record. -/
def chunk_selectors (selectors : List SelectorInfo) (filename : String) : List Chunk :=
  selectors.map fun sel =>
    { text := String.intercalate " | "
        (["Element Type: " ++ sel.element_type]
          ++ (if sel.element_id ≠ "" then ["ID: " ++ sel.element_id] else [])
          ++ (if sel.element_name ≠ "" then ["Name: " ++ sel.element_name] else [])
          ++ (if sel.placeholder ≠ "" then ["Placeholder: " ++ sel.placeholder] else [])
          ++ (if sel.text_content ≠ "" then ["Text: " ++ sel.text_content] else []))
      metadata := [("source", MVal.s filename), ("type", MVal.s "html_selector"),
        ("element_type", MVal.s sel.element_type), ("element_id", MVal.s sel.element_id),
        ("element_name", MVal.s sel.element_name), ("css_selector", MVal.s sel.css_selector),
        ("xpath", MVal.s sel.xpath), ("placeholder", MVal.s sel.placeholder),
        ("input_type", MVal.s sel.input_type)] }

/-- `chunk_document` with its default iteration budget; at the
configured 750/100 the budget always suffices (chunk_text_terminates),
so the empty fallback is never taken there. -/
def chunk_documentD (p t s : String) : List Chunk := (chunk_document p t s).getD []

/-- The extensions the parser dispatch table covers. -/
def supported_extensions : List String := [".html", ".htm", ".md", ".txt", ".json", ".pdf"]

/-- Python `Path(filename).suffix.lower()`: the last dot-suffix of the
final path component when the dot is neither leading nor trailing,
lowercased. -/
def suffixLower (path : String) : String :=
  match rfindIn (basename path).data ['.'] 0 (basename path).data.length with
  | some i =>
    if 0 < i ∧ i < (basename path).data.length - 1 then lowerS ⟨(basename path).data.drop i⟩
    else ""
  | none => ""

/-- `DocumentParser.parse_file` (backend/ingestion.py lines 14-32):
dispatch purely on the lowered extension, failing on an unsupported
one.  The per-format parser bodies read the filesystem and drive
external parsing libraries, so they enter as a parameter. -/
def parse_file (parserFor : String → String → Except String ParsedDoc) (path : String) :
    Except String ParsedDoc :=
  if supported_extensions.contains (suffixLower path) then parserFor (suffixLower path) path
  else Except.error ("Unsupported file type: " ++ suffixLower path)

/-- Did a parse succeed? -/
def isOkE : Except String ParsedDoc → Bool
  | Except.ok _ => true
  | Except.error _ => false

/-- The chunks one successfully parsed file contributes: its text
chunks when the text is non-empty, plus selector chunks when it is
markup with extracted elements (backend/rag.py lines 27-43). -/
def fileChunksOk (path : String) (d : ParsedDoc) : List Chunk :=
  (if d.text ≠ "" then chunk_documentD path d.type d.text else [])
    ++ (if d.type == "html" && !d.selectors.isEmpty then
        chunk_selectors d.selectors (basename path) else [])

/-- The chunks one path contributes to the batch: none when its parse
fails. -/
def fileChunks (parse : String → Except String ParsedDoc) (path : String) : List Chunk :=
  match parse path with
  | Except.error _ => []
  | Except.ok d => fileChunksOk path d

/-- One iteration of the build loop: a parse failure is caught, logged
and skipped; a success appends its chunks and records the file. -/
def buildStep (parse : String → Except String ParsedDoc)
    (acc : List Chunk × List String) (path : String) : List Chunk × List String :=
  match parse path with
  | Except.error _ => acc
  | Except.ok d => (acc.1 ++ fileChunksOk path d, acc.2 ++ [basename path])

/-- The value `build_knowledge_base` returns; num_chunks is what
add_documents reports, the length of the submitted batch. -/
structure BuildResult where
  num_chunks : Nat
  num_documents : Nat
  processed_files : List String
  all_chunks : List Chunk

/-- `RAGPipeline.build_knowledge_base` (backend/rag.py lines 14-59),
parameterized by the per-format parse function. -/
def build_knowledge_base (parse : String → Except String ParsedDoc)
    (paths : List String) : BuildResult :=
  { num_chunks := (paths.foldl (buildStep parse) ([], [])).1.length
    num_documents := (paths.foldl (buildStep parse) ([], [])).2.length
    processed_files := (paths.foldl (buildStep parse) ([], [])).2
    all_chunks := (paths.foldl (buildStep parse) ([], [])).1 }

theorem build_fold (parse : String → Except String ParsedDoc) :
    ∀ (paths : List String) (acc : List Chunk × List String),
      paths.foldl (buildStep parse) acc
        = (acc.1 ++ (paths.map (fileChunks parse)).flatten,
           acc.2 ++ (paths.filter (fun p => isOkE (parse p))).map basename) := by
  intro paths
  induction paths with
  | nil =>
    intro acc
    simp
  | cons p ps ih =>
    intro acc
    rw [List.foldl_cons, ih, List.map_cons, List.flatten_cons, List.filter_cons]
    cases hp : parse p with
    | error e =>
      have h1 : buildStep parse acc p = acc := by
        unfold buildStep
        rw [hp]
      have h2 : fileChunks parse p = [] := by
        unfold fileChunks
        rw [hp]
      have h3 : isOkE (parse p) = false := by
        rw [hp]
        rfl
      rw [h1, h2]
      simp [isOkE]
    | ok d =>
      have h1 : buildStep parse acc p = (acc.1 ++ fileChunksOk p d, acc.2 ++ [basename p]) := by
        unfold buildStep
        rw [hp]
      have h2 : fileChunks parse p = fileChunksOk p d := by
        unfold fileChunks
        rw [hp]
      have h3 : isOkE (parse p) = true := by
        rw [hp]
        rfl
      rw [h1, h2]
      simp [isOkE, List.append_assoc]

/-- C9: build isolates per-file parse failures: the processed files
are exactly the successfully parsed ones in order, the submitted chunk
batch is the concatenation of the per-file chunks of the successful
parses (a failing path contributes nothing and aborts nothing), the
reported counts agree with these, and a path whose lowered extension
is not in the dispatch table always fails its parse with the
unsupported-file-type error. -/
theorem build_isolates_failures (parse : String → Except String ParsedDoc)
    (paths : List String) :
    (build_knowledge_base parse paths).processed_files
        = (paths.filter (fun p => isOkE (parse p))).map basename ∧
      (build_knowledge_base parse paths).all_chunks
        = (paths.map (fileChunks parse)).flatten ∧
      (build_knowledge_base parse paths).num_chunks
        = ((paths.map (fileChunks parse)).flatten).length ∧
      (build_knowledge_base parse paths).num_documents
        = (paths.filter (fun p => isOkE (parse p))).length ∧
      ∀ parserFor path, suffixLower path ∉ supported_extensions →
        parse_file parserFor path
          = Except.error ("Unsupported file type: " ++ suffixLower path) := by
  have hf := build_fold parse paths ([], [])
  refine ⟨?_, ?_, ?_, ?_, ?_⟩
  · show (paths.foldl (buildStep parse) ([], [])).2 = _
    rw [hf]
    simp
  · show (paths.foldl (buildStep parse) ([], [])).1 = _
    rw [hf]
    simp
  · show (paths.foldl (buildStep parse) ([], [])).1.length = _
    rw [hf]
    simp
  · show (paths.foldl (buildStep parse) ([], [])).2.length = _
    rw [hf]
    simp
  · intro parserFor path hext
    unfold parse_file
    rw [if_neg (by
      intro hc
      exact hext (by simpa using hc))]

/-- A concrete parse function: one bad path, everything else a plain
text document. -/
def parse0 : String → Except String ParsedDoc := fun p =>
  if p = "bad.xyz" then Except.error "boom"
  else Except.ok ⟨"hello world", "text", []⟩

theorem build_isolates_failures_witness :
    (build_knowledge_base parse0 ["a.txt", "bad.xyz", "b.md"]).processed_files
        = ["a.txt", "b.md"] ∧
      parse_file (fun _ _ => Except.ok ⟨"", "text", []⟩) "page.xyz"
        = Except.error "Unsupported file type: .xyz" := by
  constructor
  · rw [(build_isolates_failures parse0 ["a.txt", "bad.xyz", "b.md"]).1]
    rfl
  · rw [(build_isolates_failures parse0 ["a.txt", "bad.xyz", "b.md"]).2.2.2.2
      (fun _ _ => Except.ok ⟨"", "text", []⟩) "page.xyz" (by decide)]
    rfl
